import Mathlib

/-!
Shallow Lean embedding of the QU-TRAX dynamic multi-agent annealing core
(`qtrax_sdk/core/dynamic_annealer.py`, `core/annealer.py`, `core/neighbor.py`,
`models/agent.py`, `models/problem.py`, `models/solution.py`).

Modelling conventions:
* Python node ids are `Int`, agent ids are `String`, edge weights and all
  annealing parameters are `ℚ` (the Python code uses floats; every claim
  settled here concerns the summation / bookkeeping structure, not float
  rounding).
* The global `random` module is modelled as an explicit stream of raw
  natural-number draws (`Rng`).  Each primitive consumes draws in the same
  order as the Python code.  `random.randbelow`-style draws are taken mod
  the range size, so every concrete Python draw sequence corresponds to a
  seed list and every seed list to a realizable draw sequence.
* The two `random.random() < p` comparisons (Metropolis acceptance and the
  quantum-jump coin) are modelled by one raw draw whose parity picks the
  outcome, except where the comparison is forced: the acceptance
  probability is 1 whenever the neighbour cost does not exceed the current
  cost (`exp 0 = 1`), and it lies strictly between 0 and 1 for a worsening
  move at positive temperature, so both outcomes are realizable exactly as
  modelled; see `acceptance_probability_pos` / `_eq_one_of_le` /
  `_lt_one_of_lt` below for the corroborating facts about the real-valued
  rule.
* Python in-place mutation (of `Solution.total_cost`, `Agent` fields, the
  agents list) is modelled by explicit state passing.
* `meta` payloads of `Solution`, node attribute dictionaries, logging
  `print` calls, and the write-only `agent_solutions` bookkeeping dict
  (dynamic_annealer.py lines 56 and 188) are omitted: no control flow of
  the embedded core reads them.  The one exception is the final
  `print(f"Simulation ended at tick {min(tick, self.max_tick)}.")`: when
  `max_tick = 0` the loop variable `tick` was never bound and the line
  raises `NameError`, which the embedding records as `RunError.nameError`.
-/

namespace QTrax

/-! ### Random-draw stream -/

/-- Explicit model of Python's global `random` stream: a list of raw draws,
consumed front to back (an exhausted list keeps yielding 0). -/
structure Rng where
  nats : List Nat
deriving DecidableEq, Repr

/-- Consume one raw draw. -/
def Rng.next (r : Rng) : Nat × Rng :=
  (r.nats.headD 0, ⟨r.nats.tail⟩)

/-- Model of `random.random() < acceptance_probability(old, new, T)`
(dynamic_annealer.py lines 58-65 and 106-107).  The acceptance probability
is 1 when `new_cost ≤ old_cost` (so the uniform draw always loses) and lies
in (0, 1) for a strictly worsening move at positive temperature, so in that
case the parity of the next raw draw selects the outcome. -/
def Rng.nextAccept (r : Rng) (old_cost new_cost : ℚ) : Bool × Rng :=
  (decide (new_cost ≤ old_cost) || decide (r.next.1 % 2 = 1), r.next.2)

/-- Model of the `random.random() >= jump_prob` coin of
`quantum_jump_neighbor` (neighbor.py line 52), returning `true` when the
jump branch is taken.  A draw in [0,1) is always ≥ a non-positive
`jump_prob` and always < a `jump_prob` ≥ 1; otherwise both outcomes are
realizable and the parity of the raw draw selects one. -/
def Rng.nextJump (r : Rng) (jump_prob : ℚ) : Bool × Rng :=
  (if jump_prob ≤ 0 then false
   else if 1 ≤ jump_prob then true
   else decide (r.next.1 % 2 = 1), r.next.2)

/-! ### Data model (`models/problem.py`, `models/solution.py`, `models/agent.py`) -/

/-- `Node` of problem.py (attribute payload omitted: the core never reads it). -/
structure Node where
  id : Int
deriving DecidableEq, Repr

/-- `Problem` of problem.py.  The NetworkX `DiGraph` is modelled as an
association list keyed by `(source, target)` (keys unique, insertion order
preserved, matching NetworkX adjacency iteration order). -/
structure Problem where
  nodes : List Node
  graph : List ((Int × Int) × ℚ)
deriving DecidableEq, Repr

/-- Edge lookup: `self.graph.has_edge(s, t)` plus the weight access
`self.graph.edges[s, t]['weight']` collapse into one association-list
lookup. -/
def Problem.lookupEdge (p : Problem) (source target : Int) : Option ℚ :=
  (p.graph.find? (fun e => e.1.1 == source && e.1.2 == target)).map (fun e => e.2)

/-- `Problem.distance` (problem.py lines 77-80): raises `ValueError`
(modelled as `Except.error ()`) when the directed edge is absent. -/
def Problem.distance (p : Problem) (source target : Int) : Except Unit ℚ :=
  match p.lookupEdge source target with
  | some w => Except.ok w
  | none => Except.error ()

/-- `Problem.get_neighbors` (problem.py lines 74-75): outgoing edge targets
in adjacency (insertion) order. -/
def Problem.get_neighbors (p : Problem) (node_id : Int) : List Int :=
  (p.graph.filter (fun e => e.1.1 == node_id)).map (fun e => e.1.2)

/-- `Solution` of solution.py, restricted to the TSP shape used by the
dynamic annealer: a single route plus a nullable cached cost. -/
structure Solution where
  routes : List Int
  total_cost : Option ℚ
deriving DecidableEq, Repr

/-- Agent status strings 'active' / 'completed' / 'blocked' (agent.py). -/
inductive Status where
  | active
  | completed
  | blocked
deriving DecidableEq, Repr

/-- `Agent` of agent.py (the redundant `agent_id` alias field is omitted). -/
structure Agent where
  id : String
  start_node : Int
  current_node : Int
  goal_node : Int
  route : List Int
  status : Status
deriving DecidableEq, Repr

/-- `Agent.__init__` (agent.py lines 11-28). -/
def Agent.make (agent_id : String) (start_node goal_node : Int) : Agent :=
  { id := agent_id
    start_node := start_node
    current_node := start_node
    goal_node := goal_node
    route := [start_node]
    status := Status.active }

/-- `Agent.step_to` (agent.py lines 33-41): set `current_node`, append to
`route`, and mark 'completed' when the goal is reached.  There is no graph
access and no validation of `next_node`. -/
def Agent.step_to (a : Agent) (next_node : Int) : Agent :=
  let a1 := { a with current_node := next_node, route := a.route ++ [next_node] }
  if a1.current_node = a1.goal_node then { a1 with status := Status.completed } else a1

/-! ### Route cost evaluator (`annealer.py` lines 69-79) -/

/-- The fixed missing-edge penalty `1e9` of `tsp_total_cost`. -/
def penalty : ℚ := 1000000000

/-- One loop step of `tsp_total_cost`: the `try`/`except ValueError` body
that adds the edge distance, or the penalty when `distance` raises. -/
def tryDistance (p : Problem) (source target : Int) : ℚ :=
  match p.distance source target with
  | Except.ok w => w
  | Except.error _ => penalty

/-- `tsp_total_cost`: sum `distance(route[i], route[i+1])` over
`i in range(len(route) - 1)` — i.e. over `route.zip route.tail` —
substituting `penalty` whenever `distance` raises, then cache the total on
the solution (`sol.total_cost = total`).  Returns the total together with
the updated solution record. -/
def tsp_total_cost (sol : Solution) (p : Problem) : ℚ × Solution :=
  let total := (sol.routes.zip sol.routes.tail).foldl
    (fun acc e => acc + tryDistance p e.1 e.2) 0
  (total, { sol with total_cost := some total })

/-! ### Perturbation operators (`neighbor.py`) -/

/-- One Fisher-Yates swap target: exchange positions `i` and `j`
(Python's `x[i], x[j] = x[j], x[i]`). -/
def swapIdx (xs : List Int) (i j : Nat) : List Int :=
  (xs.set i (xs.getD j 0)).set j (xs.getD i 0)

/-- The CPython `random.shuffle` loop
`for i in reversed(range(1, len(x))): j = randbelow(i + 1); swap x[i] x[j]`,
with `randbelow` modelled as the next raw draw mod `i + 1`.  The fuel
argument is the current index `i`. -/
def shuffleFrom : List Int → Rng → Nat → List Int × Rng
  | xs, rng, 0 => (xs, rng)
  | xs, rng, i + 1 =>
    shuffleFrom (swapIdx xs (i + 1) (rng.next.1 % (i + 2))) rng.next.2 i

/-- `random.shuffle(x)` on a list. -/
def shuffle (xs : List Int) (rng : Rng) : List Int × Rng :=
  shuffleFrom xs rng (xs.length - 1)

/-- `sorted(random.sample(range(1, n - 1), 2))` (neighbor.py lines 25
and 57): two distinct indices drawn from `[1, n-2]` and sorted.  The first
raw draw picks one of the `n - 2` values, the second picks one of the
remaining `n - 3`; every ordered pair `1 ≤ i < j ≤ n - 2` is realizable.
Only called with `n ≥ 4`. -/
def sampleTwo (n : Nat) (rng : Rng) : (Nat × Nat) × Rng :=
  let m := n - 2
  let a := rng.next.1 % m
  let b0 := rng.next.2.next.1 % (m - 1)
  let b := if b0 < a then b0 else b0 + 1
  ((1 + min a b, 1 + max a b), rng.next.2.next.2)

/-- `tsp_2opt_neighbor` (neighbor.py lines 8-29).  For routes shorter than
4 the input route *and its cached cost* are returned unchanged (line 22
passes `current_solution.total_cost` through); otherwise the sub-segment
`route[i:j]` is reversed and the cost of the new solution is `None`. -/
def tsp_2opt_neighbor (current_solution : Solution) (p : Problem) (rng : Rng) :
    Solution × Rng :=
  let route := current_solution.routes
  let n := route.length
  if n < 4 then
    ({ routes := route, total_cost := current_solution.total_cost }, rng)
  else
    let i := (sampleTwo n rng).1.1
    let j := (sampleTwo n rng).1.2
    ({ routes := route.take i ++ ((route.drop i).take (j - i)).reverse ++ route.drop j
       total_cost := none }, (sampleTwo n rng).2)

/-- `quantum_jump_neighbor` (neighbor.py lines 32-64).  Short routes and a
losing coin delegate to 2-opt (the coin is only tossed when `n ≥ 4`, as the
Python `or` short-circuits); otherwise `route[i:j]` is replaced by a
`random.shuffle` of itself and the cost is `None`. -/
def quantum_jump_neighbor (current_solution : Solution) (p : Problem)
    (jump_prob : ℚ) (rng : Rng) : Solution × Rng :=
  let route := current_solution.routes
  let n := route.length
  if n < 4 then tsp_2opt_neighbor current_solution p rng
  else
    let rng1 := (rng.nextJump jump_prob).2
    if !(rng.nextJump jump_prob).1 then tsp_2opt_neighbor current_solution p rng1
    else
      let i := (sampleTwo n rng1).1.1
      let j := (sampleTwo n rng1).1.2
      let rng2 := (sampleTwo n rng1).2
      let sh := shuffle ((route.drop i).take (j - i)) rng2
      ({ routes := route.take i ++ sh.1 ++ route.drop j, total_cost := none }, sh.2)

/-! ### Single-agent local annealer (`dynamic_annealer.py` lines 58-116) -/

/-- The run-configuration bundle of `DynamicAnnealer.__init__`. -/
structure Config where
  max_tick : Nat
  mini_iter : Nat
  start_temp : ℚ
  cooling_rate : ℚ
  min_temp : ℚ
  quantum_jump_prob : ℚ
deriving DecidableEq, Repr

/-- Steps of `_local_sa` forcing `agent.current_node` to the front of the
shuffled route (lines 84-90): swap it into position 0 when present,
otherwise insert it at the front.  (On an empty node list the Python
`route[0]` would raise `IndexError`; the embedding's `headD` default makes
the function total, and every theorem touching this path uses a non-empty
node list.) -/
def forceFront (cur : Int) (route : List Int) : List Int :=
  if route.headD cur ≠ cur then
    match route.findIdx? (fun x => x = cur) with
    | some idx => (route.set 0 (route.getD idx 0)).set idx (route.headD 0)
    | none => cur :: route
  else route

/-- Step of `_local_sa` closing the cycle (lines 93-94): append
`agent.current_node` unless the route already ends with it. -/
def forceBack (cur : Int) (route : List Int) : List Int :=
  if route.getLastD cur ≠ cur then route ++ [cur] else route

/-- Lines 76-98 of `_local_sa`: shuffle all node ids, anchor the agent's
current node at both ends, and evaluate the initial candidate.  Returns
(initial candidate with cached cost, its cost, remaining draws). -/
def local_sa_init (p : Problem) (agent : Agent) (rng : Rng) :
    Solution × ℚ × Rng :=
  let sh := shuffle (p.nodes.map (fun n => n.id)) rng
  let route := forceBack agent.current_node (forceFront agent.current_node sh.1)
  let r := tsp_total_cost { routes := route, total_cost := none } p
  (r.2, r.1, sh.2)

/-- The mini-SA loop of `_local_sa` (lines 101-114).  Note that the Python
code keeps a single `best_solution` variable which is overwritten by
*every* Metropolis-accepted neighbour — including accepted worsening
moves — and carries no separate best-seen tracker (unlike `Annealer.run`,
annealer.py lines 53-58).  The fuel argument is the remaining iteration
count; cooling happens after the acceptance step, and the loop breaks once
the cooled temperature drops below `min_temp`. -/
def localSaLoop (p : Problem) (cfg : Config) :
    Nat → Solution → ℚ → ℚ → Rng → Solution × Rng
  | 0, best_solution, _, _, rng => (best_solution, rng)
  | k + 1, best_solution, best_cost, temperature, rng =>
    let nb := quantum_jump_neighbor best_solution p cfg.quantum_jump_prob rng
    let r := tsp_total_cost nb.1 p
    let ac := (nb.2).nextAccept best_cost r.1
    let best' := if ac.1 then r.2 else best_solution
    let cost' := if ac.1 then r.1 else best_cost
    let temperature' := temperature * cfg.cooling_rate
    if temperature' < cfg.min_temp then (best', ac.2)
    else localSaLoop p cfg k best' cost' temperature' ac.2

/-- `DynamicAnnealer._local_sa` (lines 67-116). -/
def local_sa (p : Problem) (cfg : Config) (agent : Agent) (rng : Rng) :
    Solution × Rng :=
  localSaLoop p cfg cfg.mini_iter (local_sa_init p agent rng).1
    (local_sa_init p agent rng).2.1 cfg.start_temp (local_sa_init p agent rng).2.2

/-! ### Collision arbiter (`dynamic_annealer.py` lines 118-134) -/

/-- `reverse_map.setdefault(node, []).append(aid)`: append `aid` to the
group of `node`, creating the group at the end on first sight (Python dict
insertion order). -/
def addToGroups (groups : List (Int × List String)) (node : Int) (aid : String) :
    List (Int × List String) :=
  match groups with
  | [] => [(node, [aid])]
  | g :: rest =>
    if g.1 = node then (g.1, g.2 ++ [aid]) :: rest
    else g :: addToGroups rest node aid

/-- The `reverse_map` built by `_detect_collisions` from the proposed move
set (a `Dict[str, int]`, modelled as an association list with unique
keys). -/
def reverseMap (proposed_moves : List (String × Int)) : List (Int × List String) :=
  proposed_moves.foldl (fun gs m => addToGroups gs m.2 m.1) []

/-- `DynamicAnnealer._detect_collisions`: collect every group with more
than one member. -/
def detect_collisions (proposed_moves : List (String × Int)) : List String :=
  (reverseMap proposed_moves).foldl
    (fun acc g => if g.2.length > 1 then acc ++ g.2 else acc) []

/-- Proof-side accessor: the group stored for node `n` (first matching key,
`[]` when absent).  Used only to characterise `reverseMap`. -/
def groupOf (gs : List (Int × List String)) (n : Int) : List String :=
  match gs with
  | [] => []
  | g :: rest => if g.1 = n then g.2 else groupOf rest n

/-- Proof-side characterisation: the agent ids proposing node `n`, in move
order.  Used only to state what `reverseMap` computes. -/
def aidsFor (moves : List (String × Int)) (n : Int) : List String :=
  match moves with
  | [] => []
  | m :: rest => if m.2 = n then m.1 :: aidsFor rest n else aidsFor rest n

/-! ### Tick scheduler (`dynamic_annealer.py` lines 136-215) -/

/-- Abnormal terminations of `DynamicAnnealer.run`: an uncaught exception
from the per-tick `event_callback` (there is no try/except around line
152), or the `NameError` raised by the final
`print(... min(tick, self.max_tick) ...)` when `max_tick = 0` leaves the
loop variable `tick` unbound (line 215). -/
inductive RunError where
  | hookRaised
  | nameError
deriving DecidableEq, Repr

/-- The per-tick mutation hook `event_callback(tick)`: it may mutate the
problem graph (arbitrarily, which subsumes the add/remove/update edge
operations) and may raise. -/
abbrev Hook := Nat → Problem → Except Unit Problem

/-- Mutable state of a simulation run: the shared graph, the agents list
(in construction order) and the random stream. -/
structure RunState where
  problem : Problem
  agents : List Agent
  rng : Rng
deriving DecidableEq, Repr

/-- `proposed_moves[agent.id] = next_node` on a Python dict: overwrite in
place, or append a fresh key. -/
def dictInsert (moves : List (String × Int)) (k : String) (v : Int) :
    List (String × Int) :=
  match moves with
  | [] => [(k, v)]
  | m :: rest => if m.1 = k then (k, v) :: rest else m :: dictInsert rest k v

/-- `del proposed_moves[aid]` on a Python dict (keys unique). -/
def dictRemove (moves : List (String × Int)) (k : String) : List (String × Int) :=
  match moves with
  | [] => []
  | m :: rest => if m.1 = k then rest else m :: dictRemove rest k

/-- Step 2 of `run` for one agent (lines 156-188): skip non-active agents,
complete agents already at goal, otherwise run `_local_sa` and extract the
node after `current_node` in the returned cycle (wrapping), falling back
to a uniformly random live neighbour — or to status 'blocked' — when
`current_node` is absent from the returned route. -/
def proposeOne (p : Problem) (cfg : Config) (agent : Agent)
    (moves : List (String × Int)) (rng : Rng) :
    Agent × List (String × Int) × Rng :=
  if agent.status ≠ Status.active then (agent, moves, rng)
  else if agent.current_node = agent.goal_node then
    ({ agent with status := Status.completed }, moves, rng)
  else
    let best_solution := (local_sa p cfg agent rng).1
    let rng1 := (local_sa p cfg agent rng).2
    match best_solution.routes.findIdx? (fun x => x = agent.current_node) with
    | none =>
      let neighbors := p.get_neighbors agent.current_node
      if neighbors.isEmpty then ({ agent with status := Status.blocked }, moves, rng1)
      else
        (agent,
         dictInsert moves agent.id (neighbors.getD (rng1.next.1 % neighbors.length) 0),
         rng1.next.2)
    | some current_idx =>
      (agent,
       dictInsert moves agent.id
         (best_solution.routes.getD ((current_idx + 1) % best_solution.routes.length) 0),
       rng1)

/-- The `for agent in self.agents` proposal loop (step 2), threading the
evolving move dict and random stream and rebuilding the (in-place mutated)
agents list in order. -/
def proposePhase (p : Problem) (cfg : Config) :
    List Agent → List (String × Int) → Rng →
    List Agent × List (String × Int) × Rng
  | [], moves, rng => ([], moves, rng)
  | a :: rest, moves, rng =>
    let one := proposeOne p cfg a moves rng
    let rec' := proposePhase p cfg rest one.2.1 one.2.2
    (one.1 :: rec'.1, rec'.2.1, rec'.2.2)

/-- `next(a for a in self.agents if a.id == aid)` followed by
`blocked_agent.status = 'blocked'` (lines 196-197): mutate the first agent
with the given id. -/
def blockFirst (agents : List Agent) (aid : String) : List Agent :=
  match agents with
  | [] => []
  | a :: rest =>
    if a.id = aid then { a with status := Status.blocked } :: rest
    else a :: blockFirst rest aid

/-- Step 3 (lines 191-197): for each colliding agent id, delete its
proposal and block the agent. -/
def applyCollisions (agents : List Agent) (moves : List (String × Int))
    (collisions : List String) : List Agent × List (String × Int) :=
  collisions.foldl (fun st aid => (blockFirst st.1 aid, dictRemove st.2 aid))
    (agents, moves)

/-- `moving_agent.step_to(next_node)` applied to the first agent with the
given id (lines 200-202). -/
def stepFirst (agents : List Agent) (aid : String) (node : Int) : List Agent :=
  match agents with
  | [] => []
  | a :: rest =>
    if a.id = aid then a.step_to node :: rest
    else a :: stepFirst rest aid node

/-- Step 4 (lines 199-202): commit every remaining proposed move in dict
order. -/
def commitMoves (agents : List Agent) (moves : List (String × Int)) : List Agent :=
  moves.foldl (fun ags m => stepFirst ags m.1 m.2) agents

/-- Step 5 (lines 204-207): unconditionally turn 'blocked' back into
'active'. -/
def unblockAgent (a : Agent) : Agent :=
  if a.status = Status.blocked then { a with status := Status.active } else a

/-- One tick of `DynamicAnnealer.run` (loop body, lines 149-212).  Returns
the post-tick state together with the `all(... == 'completed')` flag of
step 6; an exception from the hook propagates (line 151-152 has no
try/except). -/
def tickStep (hook : Option Hook) (cfg : Config) (tick : Nat) (st : RunState) :
    Except RunError (RunState × Bool) :=
  match (match hook with
         | none => Except.ok st.problem
         | some h => h tick st.problem) with
  | Except.error _ => Except.error RunError.hookRaised
  | Except.ok p =>
    let pr := proposePhase p cfg st.agents [] st.rng
    let cm := applyCollisions pr.1 pr.2.1 (detect_collisions pr.2.1)
    let agents4 := (commitMoves cm.1 cm.2).map unblockAgent
    Except.ok ({ problem := p, agents := agents4, rng := pr.2.2 },
      agents4.all (fun a => a.status = Status.completed))

/-- The `for tick in range(self.max_tick)` loop.  Returns the final state,
the number of ticks executed, and `some t` when the all-completed break of
step 6 fired at tick `t` (`none` when the budget ran out). -/
def runFrom (hook : Option Hook) (cfg : Config) :
    Nat → Nat → RunState → Except RunError (RunState × Nat × Option Nat)
  | 0, _, st => Except.ok (st, 0, none)
  | fuel + 1, tick, st =>
    match tickStep hook cfg tick st with
    | Except.error e => Except.error e
    | Except.ok pr =>
      if pr.2 then Except.ok (pr.1, 1, some tick)
      else
        match runFrom hook cfg fuel (tick + 1) pr.1 with
        | Except.error e => Except.error e
        | Except.ok r => Except.ok (r.1, r.2.1 + 1, r.2.2)

/-- `DynamicAnnealer.run` (lines 136-215).  With `max_tick = 0` the loop
never runs and the final logging line raises `NameError` (the loop
variable `tick` is unbound); otherwise the loop runs for at most
`max_tick` ticks, breaking early when every agent is completed. -/
def run (hook : Option Hook) (cfg : Config) (st : RunState) :
    Except RunError (RunState × Nat × Option Nat) :=
  if cfg.max_tick = 0 then Except.error RunError.nameError
  else runFrom hook cfg cfg.max_tick 0 st

/-! ### Concrete scenario instances used by the claim theorems -/

/-- The route-history invariant of `Agent` (spec section 3): non-empty
history starting at `start_node` and ending at `current_node`. -/
def routeOk (a : Agent) : Prop :=
  a.route ≠ [] ∧ a.route.head? = some a.start_node ∧ a.route.getLast? = some a.current_node

/-- C8 witness agent. -/
def agentW8 : Agent := Agent.make "W" 1 9

/-- C5 witness scenario: an empty graph (the operators never read it) and
a concrete 5-element cycle. -/
def pW5 : Problem := { nodes := [], graph := [] }

def solW5 : Solution := { routes := [1, 2, 3, 4, 1], total_cost := some 4 }

/-- C4 witness move set: agents A and B both claim node 5. -/
def movesW4 : List (String × Int) := [("A", 5), ("B", 5), ("C", 6)]

noncomputable def acceptance_probability (old_cost new_cost temperature : ℝ) : ℝ :=
  if new_cost < old_cost then 1
  else Real.exp ((old_cost - new_cost) / (temperature + 1e-9))

/-- Empty problem used by concrete perturbation-operator statements (the
operators never read the graph). -/
def pC9 : Problem := { nodes := [], graph := [] }

/-- Two isolated nodes and no edges at all. -/
def pC10 : Problem := { nodes := [⟨1⟩, ⟨2⟩], graph := [] }

def cfgC10 : Config :=
  { max_tick := 3, mini_iter := 0, start_temp := 100, cooling_rate := 9/10,
    min_temp := 1/100, quantum_jump_prob := 1/20 }

def stC10 : RunState :=
  { problem := pC10, agents := [Agent.make "A" 1 2], rng := ⟨[1]⟩ }

/-- A hook that always raises. -/
def hookC2 : Hook := fun _ _ => Except.error ()

def cfgC2 : Config :=
  { max_tick := 4, mini_iter := 3, start_temp := 100, cooling_rate := 9/10,
    min_temp := 1/100, quantum_jump_prob := 1/20 }

def stC2 : RunState :=
  { problem := { nodes := [⟨1⟩], graph := [] }, agents := [Agent.make "A" 1 1],
    rng := ⟨[]⟩ }

/-- Witness for the C2 amended theorem with a hook raising only at tick 0. -/
def hookW2 : Hook := fun t pr => if t = 0 then Except.error () else Except.ok pr

def cfgW2 : Config :=
  { max_tick := 2, mini_iter := 1, start_temp := 50, cooling_rate := 1/2,
    min_temp := 1/10, quantum_jump_prob := 1/10 }

def stW2 : RunState :=
  { problem := { nodes := [⟨4⟩], graph := [] }, agents := [Agent.make "B" 4 4],
    rng := ⟨[2]⟩ }

def cfgC6 : Config :=
  { max_tick := 0, mini_iter := 5, start_temp := 100, cooling_rate := 9/10,
    min_temp := 1/100, quantum_jump_prob := 1/20 }

def stC6 : RunState :=
  { problem := { nodes := [], graph := [] }, agents := [], rng := ⟨[]⟩ }

/-- Witness scenario for the C6 amended theorem: an empty agent set
converges on the first tick. -/
def cfgW6 : Config :=
  { max_tick := 1, mini_iter := 0, start_temp := 100, cooling_rate := 9/10,
    min_temp := 1/100, quantum_jump_prob := 1/20 }

def stW6 : RunState :=
  { problem := { nodes := [], graph := [] }, agents := [], rng := ⟨[]⟩ }

/-- Witness scenario for C7: two agents both propose node 3 at tick 0,
collide, are blocked, and are unblocked again by the end of the tick. -/
def pW7 : Problem := { nodes := [⟨1⟩, ⟨2⟩, ⟨3⟩], graph := [] }

def cfgW7 : Config :=
  { max_tick := 5, mini_iter := 0, start_temp := 100, cooling_rate := 9/10,
    min_temp := 1/100, quantum_jump_prob := 1/20 }

def stW7 : RunState :=
  { problem := pW7, agents := [Agent.make "A" 1 3, Agent.make "B" 2 3],
    rng := ⟨[1, 1, 0, 0]⟩ }

def agentW7A : Agent :=
  { id := "A", start_node := 1, current_node := 1, goal_node := 3,
    route := [1], status := Status.active }

def agentW7B : Agent :=
  { id := "B", start_node := 2, current_node := 2, goal_node := 3,
    route := [2], status := Status.active }

def stW7fin : RunState :=
  { problem := pW7, agents := [agentW7A, agentW7B], rng := ⟨[]⟩ }

/-- Four nodes; the tour 1→2→3→4→1 costs 4, the tour 1→3→2→4→1 costs 16. -/
def pC1 : Problem :=
  { nodes := [⟨1⟩, ⟨2⟩, ⟨3⟩, ⟨4⟩]
    graph := [((1, 2), 1), ((2, 3), 1), ((3, 4), 1), ((4, 1), 1),
              ((1, 3), 5), ((3, 2), 5), ((2, 4), 5)] }

def agentC1 : Agent := Agent.make "A" 1 4

def cfgC1 : Config :=
  { max_tick := 100, mini_iter := 1, start_temp := 100, cooling_rate := 9/10,
    min_temp := 1/100, quantum_jump_prob := 1/20 }

/-- Draw sequence: `[3, 2, 1]` make the shuffle the identity (initial
candidate `[1, 2, 3, 4, 1]`, cost 4), `0` declines the quantum jump,
`[0, 1]` pick the 2-opt indices `i = 1`, `j = 3` (neighbour
`[1, 3, 2, 4, 1]`, cost 16), and the final `1` makes the Metropolis draw
accept the worsening move (realizable: the acceptance probability
`exp((4 - 16) / (100 + 1e-9))` is strictly positive, so a uniform draw of
0.0 accepts; see `acceptance_probability_pos`). -/
def rngC1 : Rng := ⟨[3, 2, 1, 0, 0, 1, 1]⟩

/-! ### Scheduler helper lemmas -/

theorem unblock_map_not_blocked (l : List Agent) :
    ∀ a ∈ l.map unblockAgent, a.status ≠ Status.blocked := by
  intro a ha
  obtain ⟨b, _, rfl⟩ := List.mem_map.mp ha
  by_cases h : b.status = Status.blocked
  · unfold unblockAgent
    rw [if_pos h]
    intro hc
    exact Status.noConfusion hc
  · unfold unblockAgent
    rw [if_neg h]
    exact h

/-- The step-6 flag returned by a successful tick is exactly the
all-completed test on the post-tick agents. -/
theorem tickStep_done_eq (hook : Option Hook) (cfg : Config) (tick : Nat)
    (st st' : RunState) (done : Bool)
    (h : tickStep hook cfg tick st = Except.ok (st', done)) :
    done = (st'.agents.all fun a => a.status = Status.completed) := by
  unfold tickStep at h
  cases hres : (match hook with
      | none => Except.ok st.problem
      | some hk => hk tick st.problem) with
  | error e =>
    rw [hres] at h
    exact absurd h (by simp)
  | ok p =>
    rw [hres] at h
    dsimp only at h
    injection h with h1
    have h2 := congrArg Prod.fst h1
    have h3 := congrArg Prod.snd h1
    dsimp only at h2 h3
    rw [← h3, ← h2]

/-- On success, the post-tick agent list is the unblocked commit result. -/
theorem tickStep_agents_eq (hook : Option Hook) (cfg : Config) (tick : Nat)
    (st st' : RunState) (done : Bool)
    (h : tickStep hook cfg tick st = Except.ok (st', done)) :
    ∃ l : List Agent, st'.agents = l.map unblockAgent := by
  unfold tickStep at h
  cases hres : (match hook with
      | none => Except.ok st.problem
      | some hk => hk tick st.problem) with
  | error e =>
    rw [hres] at h
    exact absurd h (by simp)
  | ok p =>
    rw [hres] at h
    dsimp only at h
    injection h with h1
    have h2 := congrArg Prod.fst h1
    dsimp only at h2
    exact ⟨_, by rw [← h2]⟩

/-- The tick counter of a successful `runFrom` never exceeds the fuel. -/
theorem runFrom_ticks_le (hook : Option Hook) (cfg : Config) :
    ∀ (fuel tick : Nat) (st st' : RunState) (n : Nat) (conv : Option Nat),
      runFrom hook cfg fuel tick st = Except.ok (st', n, conv) → n ≤ fuel := by
  intro fuel
  induction fuel with
  | zero =>
    intro tick st st' n conv h
    unfold runFrom at h
    injection h with h1
    have := congrArg (fun r => r.2.1) h1
    dsimp only at this
    omega
  | succ k ih =>
    intro tick st st' n conv h
    unfold runFrom at h
    cases hts : tickStep hook cfg tick st with
    | error e =>
      rw [hts] at h
      exact absurd h (by simp)
    | ok pr =>
      rw [hts] at h
      dsimp only at h
      cases hd : pr.2 with
      | true =>
        rw [hd] at h
        simp only [if_true] at h
        injection h with h1
        have := congrArg (fun r => r.2.1) h1
        dsimp only at this
        omega
      | false =>
        rw [hd] at h
        simp only [Bool.false_eq_true, if_false] at h
        cases hrec : runFrom hook cfg k (tick + 1) pr.1 with
        | error e =>
          rw [hrec] at h
          exact absurd h (by simp)
        | ok r =>
          rw [hrec] at h
          injection h with h1
          have hn := congrArg (fun x => x.2.1) h1
          dsimp only at hn
          have := ih (tick + 1) pr.1 r.1 r.2.1 r.2.2 (by rw [hrec])
          omega

/-- After at least one tick of budget, a successful `runFrom` reports
convergence (`conv.isSome`) iff every agent of the final state is
completed. -/
theorem runFrom_conv_iff (hook : Option Hook) (cfg : Config) :
    ∀ (fuel tick : Nat) (st st' : RunState) (n : Nat) (conv : Option Nat),
      runFrom hook cfg (fuel + 1) tick st = Except.ok (st', n, conv) →
      (conv.isSome ↔ (st'.agents.all fun a => a.status = Status.completed) = true) := by
  intro fuel
  induction fuel with
  | zero =>
    intro tick st st' n conv h
    unfold runFrom at h
    cases hts : tickStep hook cfg tick st with
    | error e =>
      rw [hts] at h
      exact absurd h (by simp)
    | ok pr =>
      rw [hts] at h
      dsimp only at h
      have hdone := tickStep_done_eq hook cfg tick st pr.1 pr.2 (by rw [hts])
      cases hd : pr.2 with
      | true =>
        rw [hd] at h
        simp only [if_true] at h
        injection h with h1
        have hst := congrArg (fun x => x.1) h1
        have hcv := congrArg (fun x => x.2.2) h1
        dsimp only at hst hcv
        rw [← hcv, ← hst]
        simp [← hdone, hd]
      | false =>
        rw [hd] at h
        simp only [Bool.false_eq_true, if_false] at h
        have hz : runFrom hook cfg 0 (tick + 1) pr.1 = Except.ok (pr.1, 0, none) := rfl
        rw [hz] at h
        dsimp only at h
        injection h with h1
        have hst := congrArg (fun x => x.1) h1
        have hcv := congrArg (fun x => x.2.2) h1
        dsimp only at hst hcv
        rw [← hcv, ← hst]
        simp [← hdone, hd]
  | succ k ih =>
    intro tick st st' n conv h
    unfold runFrom at h
    cases hts : tickStep hook cfg tick st with
    | error e =>
      rw [hts] at h
      exact absurd h (by simp)
    | ok pr =>
      rw [hts] at h
      dsimp only at h
      have hdone := tickStep_done_eq hook cfg tick st pr.1 pr.2 (by rw [hts])
      cases hd : pr.2 with
      | true =>
        rw [hd] at h
        simp only [if_true] at h
        injection h with h1
        have hst := congrArg (fun x => x.1) h1
        have hcv := congrArg (fun x => x.2.2) h1
        dsimp only at hst hcv
        rw [← hcv, ← hst]
        simp [← hdone, hd]
      | false =>
        rw [hd] at h
        simp only [Bool.false_eq_true, if_false] at h
        cases hrec : runFrom hook cfg (k + 1) (tick + 1) pr.1 with
        | error e =>
          rw [hrec] at h
          exact absurd h (by simp)
        | ok r =>
          rw [hrec] at h
          injection h with h1
          have hst := congrArg (fun x => x.1) h1
          have hcv := congrArg (fun x => x.2.2) h1
          dsimp only at hst hcv
          rw [← hcv, ← hst]
          exact ih (tick + 1) pr.1 r.1 r.2.1 r.2.2 (by rw [hrec])

/-! ### Corroboration of the Metropolis-draw model

The real-valued acceptance rule of `_acceptance_probability`
(dynamic_annealer.py lines 58-65).  These facts justify modelling the
`random.random() < ap` comparison by `Rng.nextAccept`: acceptance is
forced whenever the neighbour cost does not exceed the current cost, and
both outcomes are realizable for a strictly worsening move at
non-negative temperature. -/

theorem acceptance_probability_pos (o n t : ℝ) : 0 < acceptance_probability o n t := by
  unfold acceptance_probability
  split
  · exact one_pos
  · exact Real.exp_pos _

theorem acceptance_probability_eq_one_of_le (o n t : ℝ) (h : n ≤ o) :
    acceptance_probability o n t = 1 := by
  unfold acceptance_probability
  rcases lt_or_eq_of_le h with hlt | heq
  · rw [if_pos hlt]
  · subst heq
    rw [if_neg (lt_irrefl n), sub_self, zero_div, Real.exp_zero]

theorem acceptance_probability_lt_one_of_lt (o n t : ℝ) (h : o < n) (ht : 0 ≤ t) :
    acceptance_probability o n t < 1 := by
  unfold acceptance_probability
  rw [if_neg (not_lt.mpr (le_of_lt h))]
  rw [Real.exp_lt_one_iff]
  apply div_neg_of_neg_of_pos
  · linarith
  · have : (0 : ℝ) < 1e-9 := by norm_num
    linarith

/-! ### C3 — cost evaluator -/

theorem foldl_add_map {α : Type} (f : α → ℚ) :
    ∀ (l : List α) (a : ℚ), l.foldl (fun acc e => acc + f e) a = a + (l.map f).sum
  | [], a => by simp
  | x :: xs, a => by
    rw [List.foldl_cons, foldl_add_map f xs (a + f x)]
    simp [add_assoc]

theorem tryDistance_eq_lookup (p : Problem) (a b : Int) :
    tryDistance p a b =
      match p.lookupEdge a b with
      | some w => w
      | none => penalty := by
  unfold tryDistance Problem.distance
  cases p.lookupEdge a b <;> rfl

/-- C3: `tsp_total_cost` is total (it is a plain function of the route and
the graph — the `ValueError` of `Problem.distance` is consumed by the
`try`/`except` of every loop step) and returns exactly the sum, over
consecutive route pairs, of the edge weight when the directed edge exists
and of the penalty constant 1e9 when it does not; it writes that value
onto the candidate's `total_cost` field, leaving the route unchanged. -/
theorem c3_tsp_total_cost_exact_sum (sol : Solution) (p : Problem) :
    (tsp_total_cost sol p).1 =
      ((sol.routes.zip sol.routes.tail).map
        (fun e =>
          match p.lookupEdge e.1 e.2 with
          | some w => w
          | none => penalty)).sum ∧
    (tsp_total_cost sol p).2.routes = sol.routes ∧
    (tsp_total_cost sol p).2.total_cost = some ((tsp_total_cost sol p).1) := by
  refine ⟨?_, rfl, rfl⟩
  unfold tsp_total_cost
  dsimp only
  rw [foldl_add_map, zero_add]
  simp only [tryDistance_eq_lookup]

/-! ### C9 — short-route behaviour of the perturbation operators -/

/-- C9 counterexample: on the length-3 route `[1, 2, 1]` with cached cost
7, `tsp_2opt_neighbor` returns the cost *unchanged* (`some 7`), not reset
to unknown (`none`) as the claim states (neighbor.py line 22 passes
`current_solution.total_cost` through). -/
theorem c9_counterexample_cost_not_reset :
    (tsp_2opt_neighbor { routes := [1, 2, 1], total_cost := some 7 } pC9 ⟨[]⟩).1.total_cost
        = some 7 ∧
    ¬ (tsp_2opt_neighbor { routes := [1, 2, 1], total_cost := some 7 } pC9 ⟨[]⟩).1.total_cost
        = none := by
  refine ⟨rfl, ?_⟩
  intro h
  exact Option.noConfusion h

/-- C9 amended: for routes of length < 4, `tsp_2opt_neighbor` returns the
input solution entirely unchanged — same route and same (carried-over,
not reset) cached cost — and consumes no random draws, and
`quantum_jump_neighbor` delegates to it without tossing the jump coin. -/
theorem c9_amended_short_route_identity (sol : Solution) (p : Problem) (rng : Rng)
    (jump_prob : ℚ) (h : sol.routes.length < 4) :
    tsp_2opt_neighbor sol p rng = (sol, rng) ∧
    quantum_jump_neighbor sol p jump_prob rng = tsp_2opt_neighbor sol p rng := by
  constructor
  · unfold tsp_2opt_neighbor
    rw [if_pos h]
  · unfold quantum_jump_neighbor
    rw [if_pos h]

/-- Witness for the C9 amended theorem at the route `[3, 1, 3]`. -/
theorem c9_amended_witness :
    ({ routes := [3, 1, 3], total_cost := some 5 } : Solution).routes.length < 4 ∧
    tsp_2opt_neighbor { routes := [3, 1, 3], total_cost := some 5 } pC9 ⟨[7]⟩
      = ({ routes := [3, 1, 3], total_cost := some 5 }, ⟨[7]⟩) :=
  ⟨by decide,
   (c9_amended_short_route_identity { routes := [3, 1, 3], total_cost := some 5 }
     pC9 ⟨[7]⟩ 0 (by decide)).1⟩

/-! ### C10 — `step_to` performs no graph validation -/

/-- C10: `Agent.step_to` is total and performs no graph validation — for
every agent and every integer `next_node` it updates `current_node`,
appends `next_node` to the route, and sets status 'completed' exactly when
`next_node` equals the goal (it takes no graph argument at all); and (on a
two-node graph with *no* edges) the scheduler's commit step moves the
agent from node 1 to node 2 anyway, producing the final route history
`[1, 2]` whose consecutive pair has no connecting edge. -/
theorem c10_step_to_no_validation :
    (∀ (a : Agent) (next_node : Int),
      (a.step_to next_node).current_node = next_node ∧
      (a.step_to next_node).route = a.route ++ [next_node] ∧
      (a.step_to next_node).status =
        (if next_node = a.goal_node then Status.completed else a.status) ∧
      (a.step_to next_node).id = a.id ∧
      (a.step_to next_node).start_node = a.start_node ∧
      (a.step_to next_node).goal_node = a.goal_node) ∧
    (pC10.lookupEdge 1 2 = none ∧
      ∃ fin : RunState, run none cfgC10 stC10 = Except.ok (fin, 1, some 0) ∧
        (fin.agents.map fun a => a.route) = [[1, 2]]) := by
  constructor
  · intro a next_node
    by_cases h : next_node = a.goal_node <;> simp [Agent.step_to, h]
  · refine ⟨rfl,
      ⟨{ problem := pC10
         agents := [{ id := "A", start_node := 1, current_node := 2, goal_node := 2,
                      route := [1, 2], status := Status.completed }]
         rng := ⟨[]⟩ }, by rfl, rfl⟩⟩

/-! ### C2 — hook exceptions are NOT caught -/

/-- C2 counterexample: an exception raised inside the mutation hook at
tick 0 propagates out of `run()` and aborts the whole run — there is no
try/except around `self.event_callback(tick)` (dynamic_annealer.py lines
151-152) — contradicting the claim that it is caught and the run
proceeds. -/
theorem c2_counterexample_hook_exception_propagates :
    run (some hookC2) cfgC2 stC2 = Except.error RunError.hookRaised := rfl

/-- C2 amended: an exception raised inside the per-tick hook is NOT
caught: whenever the hook raises on the first tick of a run with a
non-zero tick budget, the exception propagates out of `run()` immediately
and the run terminates abnormally (neither by convergence nor by budget
exhaustion). -/
theorem c2_amended_hook_exception_aborts (h : Hook) (cfg : Config) (st : RunState)
    (hmt : cfg.max_tick ≠ 0) (hraise : h 0 st.problem = Except.error ()) :
    run (some h) cfg st = Except.error RunError.hookRaised := by
  unfold run
  rw [if_neg hmt]
  obtain ⟨m, hm⟩ : ∃ m, cfg.max_tick = m + 1 := ⟨cfg.max_tick - 1, by omega⟩
  rw [hm]
  have hts : tickStep (some h) cfg 0 st = Except.error RunError.hookRaised := by
    unfold tickStep
    dsimp only
    rw [hraise]
  unfold runFrom
  rw [hts]

/-- Witness for the C2 amended theorem: a hook raising only at tick 0. -/
theorem c2_amended_witness :
    run (some hookW2) cfgW2 stW2 = Except.error RunError.hookRaised :=
  c2_amended_hook_exception_aborts hookW2 cfgW2 stW2 (by decide) (by rfl)

/-! ### C6 — tick budget and convergence -/

/-- C6 counterexample: with `max_tick = 0` and an empty agent list, "every
agent's status becomes Completed" holds vacuously, yet the run does not
stop by convergence: the Python loop body never executes, and the final
`print(f"Simulation ended at tick {min(tick, self.max_tick)}.")` raises
`NameError` because the loop variable `tick` was never bound — the run
terminates neither Converged nor Exhausted. -/
theorem c6_counterexample_zero_budget :
    (stC6.agents.all fun a => a.status = Status.completed) = true ∧
    run none cfgC6 stC6 = Except.error RunError.nameError := ⟨rfl, rfl⟩

/-- C6 amended: a run that returns normally (so `max_tick ≥ 1` — with
`max_tick = 0` the final logging line raises `NameError` — and the hook
never raised) executes at most `max_tick` ticks, always terminates, and
ends via the convergence break (rather than by falling off the tick
budget) iff every agent's final status is Completed.  The break may fire
on the last budgeted tick, in which case the whole budget is consumed. -/
theorem c6_amended_budget_and_convergence (hook : Option Hook) (cfg : Config)
    (st st' : RunState) (n : Nat) (conv : Option Nat)
    (hrun : run hook cfg st = Except.ok (st', n, conv)) :
    n ≤ cfg.max_tick ∧
      (conv.isSome ↔ (st'.agents.all fun a => a.status = Status.completed) = true) := by
  unfold run at hrun
  by_cases h0 : cfg.max_tick = 0
  · rw [if_pos h0] at hrun
    exact absurd hrun (by simp)
  · rw [if_neg h0] at hrun
    obtain ⟨m, hm⟩ : ∃ m, cfg.max_tick = m + 1 := ⟨cfg.max_tick - 1, by omega⟩
    rw [hm] at hrun
    constructor
    · rw [hm]
      exact runFrom_ticks_le hook cfg (m + 1) 0 st st' n conv hrun
    · exact runFrom_conv_iff hook cfg m 0 st st' n conv hrun

/-- Witness for the C6 amended theorem on the one-tick empty-agents run. -/
theorem c6_amended_witness :
    1 ≤ cfgW6.max_tick ∧
      ((some 0 : Option Nat).isSome ↔
        (stW6.agents.all fun a => a.status = Status.completed) = true) :=
  c6_amended_budget_and_convergence none cfgW6 stW6 stW6 1 (some 0) (by rfl)

/-! ### C7 — blocking is transient -/

/-- C7: at the end of every successfully executed tick (after the step-5
unblocking pass) no agent has status 'blocked'; since the end state of
tick `t` is the start state of tick `t + 1`, an agent blocked during tick
`t` is 'active' again when tick `t + 1` begins. -/
theorem c7_blocking_transient (hook : Option Hook) (cfg : Config) (tick : Nat)
    (st st' : RunState) (done : Bool)
    (h : tickStep hook cfg tick st = Except.ok (st', done)) :
    ∀ a ∈ st'.agents, a.status ≠ Status.blocked := by
  obtain ⟨l, hl⟩ := tickStep_agents_eq hook cfg tick st st' done h
  rw [hl]
  exact unblock_map_not_blocked l

/-- Witness for C7: agent A, blocked by the tick-0 collision of `stW7`,
is not blocked in the post-tick state. -/
theorem c7_witness : agentW7A.status ≠ Status.blocked :=
  c7_blocking_transient none cfgW7 0 stW7 stW7fin false (by rfl) agentW7A
    (by decide)

/-! ### C1 — `_local_sa` does not return the best-seen candidate

`_local_sa`'s docstring says it "finally return[s] the best Solution
found" and names its variables `best_solution` / `best_cost`, and the
sibling `Annealer.run` (annealer.py lines 53-58) performs exactly this
best-seen tracking (`if current_cost < best_cost: best = current`).  But
the mini-SA loop of `_local_sa` (dynamic_annealer.py lines 106-109)
overwrites `best_solution` with *every* Metropolis-accepted neighbour —
including accepted worsening moves — and returns the last accepted
candidate, not the minimum-cost one seen. -/

/-- C1: on this input the candidate returned by `_local_sa` is the
last-accepted candidate of the mini-annealing loop, of cost 16 — strictly
worse than the initial candidate (cost 4, the minimum cost seen during
the whole search), contradicting the claim (and the function's own
docstring) that the returned candidate's cost is ≤ the cost of the
initial candidate and of every candidate seen. -/
theorem c1_local_sa_returns_worse_than_initial :
    (local_sa_init pC1 agentC1 rngC1).2.1 = 4 ∧
    (local_sa_init pC1 agentC1 rngC1).1.routes = [1, 2, 3, 4, 1] ∧
    (local_sa pC1 cfgC1 agentC1 rngC1).1.total_cost = some 16 ∧
    (local_sa pC1 cfgC1 agentC1 rngC1).1.routes = [1, 3, 2, 4, 1] ∧
    ¬ ((16 : ℚ) ≤ 4) := by
  refine ⟨?_, by rfl, ?_, ?_, by norm_num⟩
  · norm_num [local_sa_init, shuffle, shuffleFrom, swapIdx, forceFront, forceBack,
      tsp_total_cost, tryDistance, Problem.distance, Problem.lookupEdge, penalty,
      Rng.next, pC1, agentC1, rngC1, Agent.make]
  · norm_num [local_sa, local_sa_init, localSaLoop, quantum_jump_neighbor,
      tsp_2opt_neighbor, sampleTwo, shuffle, shuffleFrom, swapIdx, forceFront,
      forceBack, tsp_total_cost, tryDistance, Problem.distance, Problem.lookupEdge,
      penalty, Rng.next, Rng.nextAccept, Rng.nextJump, pC1, agentC1, cfgC1, rngC1,
      Agent.make]
  · norm_num [local_sa, local_sa_init, localSaLoop, quantum_jump_neighbor,
      tsp_2opt_neighbor, sampleTwo, shuffle, shuffleFrom, swapIdx, forceFront,
      forceBack, tsp_total_cost, tryDistance, Problem.distance, Problem.lookupEdge,
      penalty, Rng.next, Rng.nextAccept, Rng.nextJump, pC1, agentC1, cfgC1, rngC1,
      Agent.make]

/-! ### C4 — collision arbiter -/

theorem groupOf_addToGroups (gs : List (Int × List String)) (node : Int) (aid : String)
    (n : Int) :
    groupOf (addToGroups gs node aid) n =
      if n = node then groupOf gs node ++ [aid] else groupOf gs n := by
  induction gs with
  | nil =>
    simp only [addToGroups, groupOf]
    by_cases h : n = node
    · subst h
      simp
    · rw [if_neg (fun hc : node = n => h hc.symm), if_neg h]
  | cons g rest ih =>
    simp only [addToGroups]
    by_cases hg : g.1 = node
    · rw [if_pos hg]
      simp only [groupOf]
      by_cases hn : n = node
      · subst hn
        rw [if_pos hg, if_pos rfl, if_pos hg]
      · have hgn : ¬ g.1 = n := fun hc => hn (hc.symm.trans hg)
        rw [if_neg hgn, if_neg hn, if_neg hgn]
    · rw [if_neg hg]
      simp only [groupOf]
      by_cases hgn : g.1 = n
      · have hn : ¬ n = node := fun hc => hg (hgn.trans hc)
        rw [if_pos hgn, if_neg hn, if_pos hgn]
      · rw [if_neg hgn, ih]
        by_cases hn : n = node
        · subst hn
          rw [if_pos rfl, if_pos rfl, if_neg hgn]
        · rw [if_neg hn, if_neg hn, if_neg hgn]

theorem aidsFor_append (xs ys : List (String × Int)) (n : Int) :
    aidsFor (xs ++ ys) n = aidsFor xs n ++ aidsFor ys n := by
  induction xs with
  | nil => simp [aidsFor]
  | cons m rest ih =>
    simp only [List.cons_append, aidsFor, List.append_eq]
    by_cases h : m.2 = n
    · rw [if_pos h, if_pos h, ih, List.cons_append]
    · rw [if_neg h, if_neg h, ih]

theorem reverseMap_append_singleton (ms : List (String × Int)) (m : String × Int) :
    reverseMap (ms ++ [m]) = addToGroups (reverseMap ms) m.2 m.1 := by
  unfold reverseMap
  rw [List.foldl_append]
  rfl

theorem groupOf_reverseMap (moves : List (String × Int)) (n : Int) :
    groupOf (reverseMap moves) n = aidsFor moves n := by
  induction moves using List.reverseRecOn with
  | nil => rfl
  | append_singleton ms m ih =>
    rw [reverseMap_append_singleton, groupOf_addToGroups, aidsFor_append]
    by_cases h : n = m.2
    · subst h
      rw [if_pos rfl, ih]
      simp [aidsFor]
    · rw [if_neg h, ih]
      have : aidsFor [m] n = [] := by
        simp only [aidsFor]
        rw [if_neg (fun hc : m.2 = n => h hc.symm)]
      rw [this, List.append_nil]
theorem groupOf_eq_of_mem (gs : List (Int × List String))
    (hnd : (gs.map Prod.fst).Nodup) (n : Int) (as : List String)
    (hmem : (n, as) ∈ gs) : groupOf gs n = as := by
  induction gs with
  | nil => cases hmem
  | cons g rest ih =>
    simp only [List.map_cons, List.nodup_cons] at hnd
    rcases List.mem_cons.mp hmem with hg | hrest
    · subst hg
      simp [groupOf]
    · have hne : ¬ g.1 = n := by
        intro hc
        exact hnd.1 (hc ▸ (List.mem_map.mpr ⟨(n, as), hrest, rfl⟩))
      simp only [groupOf]
      rw [if_neg hne]
      exact ih hnd.2 hrest

theorem mem_of_groupOf_ne_nil (gs : List (Int × List String)) (n : Int)
    (h : groupOf gs n ≠ []) : (n, groupOf gs n) ∈ gs := by
  induction gs with
  | nil => exact absurd rfl h
  | cons g rest ih =>
    by_cases hg : g.1 = n
    · simp only [groupOf, if_pos hg]
      exact List.mem_cons.mpr (Or.inl (Prod.ext hg.symm rfl))
    · simp only [groupOf, if_neg hg] at h ⊢
      right
      exact ih h

theorem mem_collect (gs : List (Int × List String)) (acc : List String) (x : String) :
    x ∈ gs.foldl (fun acc g => if g.2.length > 1 then acc ++ g.2 else acc) acc ↔
      x ∈ acc ∨ ∃ g, g ∈ gs ∧ 1 < g.2.length ∧ x ∈ g.2 := by
  induction gs generalizing acc with
  | nil => simp
  | cons g rest ih =>
    rw [List.foldl_cons]
    by_cases h : g.2.length > 1
    · rw [if_pos h, ih]
      simp only [List.mem_append, List.mem_cons]
      constructor
      · rintro ((hx | hx) | ⟨g', hg', hl, hx⟩)
        · exact Or.inl hx
        · exact Or.inr ⟨g, Or.inl rfl, h, hx⟩
        · exact Or.inr ⟨g', Or.inr hg', hl, hx⟩
      · rintro (hx | ⟨g', (rfl | hg'), hl, hx⟩)
        · exact Or.inl (Or.inl hx)
        · exact Or.inl (Or.inr hx)
        · exact Or.inr ⟨g', hg', hl, hx⟩
    · rw [if_neg h, ih]
      simp only [List.mem_cons]
      constructor
      · rintro (hx | ⟨g', hg', hl, hx⟩)
        · exact Or.inl hx
        · exact Or.inr ⟨g', Or.inr hg', hl, hx⟩
      · rintro (hx | ⟨g', (rfl | hg'), hl, hx⟩)
        · exact Or.inl hx
        · exact absurd hl h
        · exact Or.inr ⟨g', hg', hl, hx⟩

theorem mem_aidsFor (moves : List (String × Int)) (n : Int) (aid : String) :
    aid ∈ aidsFor moves n ↔ (aid, n) ∈ moves := by
  induction moves with
  | nil => simp [aidsFor]
  | cons m rest ih =>
    simp only [aidsFor, List.mem_cons]
    by_cases h : m.2 = n
    · rw [if_pos h]
      simp only [List.mem_cons, ih]
      constructor
      · rintro (rfl | hr)
        · exact Or.inl (Prod.ext rfl h.symm)
        · exact Or.inr hr
      · rintro (hm | hr)
        · exact Or.inl (congrArg Prod.fst hm)
        · exact Or.inr hr
    · rw [if_neg h, ih]
      constructor
      · exact Or.inr
      · rintro (hm | hr)
        · exact absurd (congrArg Prod.snd hm).symm h
        · exact hr

theorem aidsFor_sublist (moves : List (String × Int)) (n : Int) :
    (aidsFor moves n).Sublist (moves.map Prod.fst) := by
  induction moves with
  | nil => simp [aidsFor]
  | cons m rest ih =>
    simp only [aidsFor, List.map_cons]
    by_cases h : m.2 = n
    · rw [if_pos h]
      exact List.Sublist.cons₂ m.1 ih
    · rw [if_neg h]
      exact List.Sublist.cons m.1 ih

theorem exists_ne_of_nodup_of_one_lt (l : List String) (hnd : l.Nodup)
    (hlen : 1 < l.length) (a : String) (ha : a ∈ l) :
    ∃ b, b ∈ l ∧ b ≠ a := by
  rcases l with _ | ⟨x, _ | ⟨y, rest⟩⟩
  · cases ha
  · simp at hlen
  · by_cases hxa : x = a
    · refine ⟨y, by simp, ?_⟩
      intro hya
      subst hxa
      subst hya
      simp [List.nodup_cons] at hnd
    · exact ⟨x, by simp, hxa⟩

theorem one_lt_length_of_two_mem (l : List String) (a b : String)
    (ha : a ∈ l) (hb : b ∈ l) (hne : a ≠ b) : 1 < l.length := by
  rcases l with _ | ⟨x, _ | ⟨y, rest⟩⟩
  · cases ha
  · simp at ha hb
    exact absurd (ha.trans hb.symm) hne
  · simp
theorem keys_addToGroups (gs : List (Int × List String)) (node : Int) (aid : String) :
    (addToGroups gs node aid).map Prod.fst =
      if node ∈ gs.map Prod.fst then gs.map Prod.fst
      else gs.map Prod.fst ++ [node] := by
  induction gs with
  | nil => simp [addToGroups]
  | cons g rest ih =>
    simp only [addToGroups]
    by_cases hg : g.1 = node
    · rw [if_pos hg]
      simp [hg]
    · rw [if_neg hg]
      simp only [List.map_cons, ih]
      by_cases hmem : node ∈ rest.map Prod.fst
      · rw [if_pos hmem, if_pos (List.mem_cons.mpr (Or.inr hmem))]
      · rw [if_neg hmem, if_neg ?hnotmem, List.cons_append]
        case hnotmem =>
          intro hc
          rcases List.mem_cons.mp hc with hc1 | hc2
          · exact hg hc1.symm
          · exact hmem hc2

theorem nodupKeys_reverseMap (moves : List (String × Int)) :
    ((reverseMap moves).map Prod.fst).Nodup := by
  induction moves using List.reverseRecOn with
  | nil => simp [reverseMap]
  | append_singleton ms m ih =>
    rw [reverseMap_append_singleton, keys_addToGroups]
    by_cases h : m.2 ∈ (reverseMap ms).map Prod.fst
    · rw [if_pos h]
      exact ih
    · rw [if_neg h]
      rw [List.nodup_append]
      refine ⟨ih, List.nodup_singleton _, ?_⟩
      intro a ha hb
      rw [List.mem_singleton] at hb
      subst hb
      exact h ha

/-- C4: the Collision Arbiter is a pure function of the Proposed Move Set
(the embedding is a plain function; the Python code only reads the dict),
and an agent id appears in its output iff at least one *other* agent id of
the map proposes the identical target node; agents proposing a
uniquely-claimed target never appear. -/
theorem c4_collision_arbiter_symmetry (moves : List (String × Int)) (aid : String)
    (hkeys : (moves.map Prod.fst).Nodup) :
    aid ∈ detect_collisions moves ↔
      ∃ n : Int, (aid, n) ∈ moves ∧
        ∃ other : String, other ≠ aid ∧ (other, n) ∈ moves := by
  unfold detect_collisions
  rw [mem_collect]
  simp only [List.not_mem_nil, false_or]
  constructor
  · rintro ⟨⟨n, as⟩, hg, hlen, hmem⟩
    have has : as = aidsFor moves n := by
      have h0 := groupOf_eq_of_mem _ (nodupKeys_reverseMap moves) n as hg
      rw [← h0, groupOf_reverseMap]
    subst has
    have hnd : (aidsFor moves n).Nodup := (aidsFor_sublist moves n).nodup hkeys
    obtain ⟨b, hb, hbne⟩ := exists_ne_of_nodup_of_one_lt _ hnd hlen aid hmem
    exact ⟨n, (mem_aidsFor moves n aid).mp hmem, b, hbne, (mem_aidsFor moves n b).mp hb⟩
  · rintro ⟨n, hmem, other, hne, hmem2⟩
    have h1 : aid ∈ aidsFor moves n := (mem_aidsFor moves n aid).mpr hmem
    have h2 : other ∈ aidsFor moves n := (mem_aidsFor moves n other).mpr hmem2
    have hlen : 1 < (aidsFor moves n).length :=
      one_lt_length_of_two_mem _ other aid h2 h1 hne
    have hne' : aidsFor moves n ≠ [] := by
      intro hnil
      rw [hnil] at h1
      cases h1
    have hmemg : (n, aidsFor moves n) ∈ reverseMap moves := by
      have h3 : groupOf (reverseMap moves) n ≠ [] := by
        rw [groupOf_reverseMap]
        exact hne'
      have h4 := mem_of_groupOf_ne_nil (reverseMap moves) n h3
      rwa [groupOf_reverseMap] at h4
    exact ⟨(n, aidsFor moves n), hmemg, hlen, h1⟩

/-- Witness for C4: in `movesW4`, agents A and B both claim node 5, so A
is detected as colliding. -/
theorem c4_witness : "A" ∈ detect_collisions movesW4 :=
  (c4_collision_arbiter_symmetry movesW4 "A" (by decide)).mpr
    ⟨5, by decide, "B", by decide, by decide⟩

/-! ### C5 — perturbation-operator invariance -/

theorem set_getD (xs : List Int) (n : Nat) : xs.set n (xs.getD n 0) = xs := by
  induction xs generalizing n with
  | nil => rfl
  | cons a t ih =>
    cases n with
    | zero => rfl
    | succ k =>
      show a :: t.set k (t.getD k 0) = a :: t
      rw [ih]

theorem cons_set_perm (t : List Int) (m : Nat) (x : Int) (h : m < t.length) :
    (t.getD m 0 :: t.set m x).Perm (x :: t) := by
  induction t generalizing m with
  | nil => simp at h
  | cons a t' ih =>
    cases m with
    | zero => exact List.Perm.swap x a t'
    | succ k =>
      have hk : k < t'.length := by simpa using h
      exact ((List.Perm.swap a (t'.getD k 0) (t'.set k x)).trans
        ((ih k hk).cons a)).trans (List.Perm.swap x a t')

theorem swapIdx_perm : ∀ (xs : List Int) (i j : Nat), i < xs.length → j < xs.length →
    (swapIdx xs i j).Perm xs
  | [], _, _, hi, _ => absurd hi (by simp)
  | a :: t, 0, 0, _, _ => by
    unfold swapIdx
    rw [show ((a :: t).getD 0 0) = a from rfl]
    rw [show ((a :: t).set 0 a) = a :: t from rfl]
    rw [show ((a :: t).set 0 a) = a :: t from rfl]
  | a :: t, 0, m + 1, _, hj => by
    show ((t.getD m 0 :: t).set (m + 1) a).Perm (a :: t)
    exact cons_set_perm t m a (by simpa using hj)
  | a :: t, n + 1, 0, hi, _ => by
    show (t.getD n 0 :: t.set n a).Perm (a :: t)
    exact cons_set_perm t n a (by simpa using hi)
  | a :: t, n + 1, m + 1, hi, hj => by
    show (a :: (t.set n (t.getD m 0)).set m (t.getD n 0)).Perm (a :: t)
    exact (swapIdx_perm t n m (by simpa using hi) (by simpa using hj)).cons a

theorem shuffleFrom_perm : ∀ (k : Nat) (xs : List Int) (rng : Rng), k < xs.length →
    ((shuffleFrom xs rng k).1).Perm xs
  | 0, xs, rng, _ => List.Perm.refl xs
  | k + 1, xs, rng, h => by
    have hj : rng.next.1 % (k + 2) < xs.length :=
      lt_of_lt_of_le (Nat.mod_lt _ (by omega)) (by omega)
    have hsw := swapIdx_perm xs (k + 1) (rng.next.1 % (k + 2)) h hj
    have hlen : (swapIdx xs (k + 1) (rng.next.1 % (k + 2))).length = xs.length := by
      simp [swapIdx]
    have hrec := shuffleFrom_perm k (swapIdx xs (k + 1) (rng.next.1 % (k + 2)))
      rng.next.2 (by omega)
    exact hrec.trans hsw

theorem shuffle_perm (xs : List Int) (rng : Rng) : ((shuffle xs rng).1).Perm xs := by
  unfold shuffle
  cases xs with
  | nil => exact List.Perm.refl _
  | cons a t => exact shuffleFrom_perm ((a :: t).length - 1) (a :: t) rng (by simp)

theorem take_mid_drop (l : List Int) (i j : Nat) (hij : i ≤ j) :
    l.take i ++ ((l.drop i).take (j - i) ++ l.drop j) = l := by
  have h2 : (l.drop i).drop (j - i) = l.drop j := by
    rw [List.drop_drop]
    congr 1
    omega
  rw [← h2, List.take_append_drop, List.take_append_drop]

theorem getLast?_append_right (l r : List Int) (h : r ≠ []) :
    (l ++ r).getLast? = r.getLast? := by
  rw [List.getLast?_append]
  cases hr : r.getLast? with
  | none => exact absurd (List.getLast?_eq_none_iff.mp hr) h
  | some x => rfl

theorem getLast?_drop (l : List Int) (j : Nat) (h : j < l.length) :
    (l.drop j).getLast? = l.getLast? := by
  induction l generalizing j with
  | nil => simp at h
  | cons a t ih =>
    cases j with
    | zero => rfl
    | succ k =>
      have hk : k < t.length := by simpa using h
      have ht : t ≠ [] := by
        intro hc
        rw [hc] at hk
        simp at hk
      obtain ⟨b, t', rfl⟩ : ∃ b t', t = b :: t' := by
        cases t with
        | nil => exact absurd rfl ht
        | cons b t' => exact ⟨b, t', rfl⟩
      rw [List.drop_succ_cons, ih k hk, List.getLast?_cons_cons]

theorem head?_take_append (a : Int) (t rest : List Int) (i : Nat) (h : 1 ≤ i) :
    (((a :: t).take i) ++ rest).head? = some a := by
  obtain ⟨i', rfl⟩ : ∃ i', i = i' + 1 := ⟨i - 1, by omega⟩
  rw [List.take_succ_cons]
  rfl

theorem sampleTwo_bounds (n : Nat) (rng : Rng) (h : 4 ≤ n) :
    1 ≤ (sampleTwo n rng).1.1 ∧ (sampleTwo n rng).1.1 < (sampleTwo n rng).1.2 ∧
      (sampleTwo n rng).1.2 ≤ n - 2 := by
  unfold sampleTwo
  dsimp only
  have ha : rng.next.1 % (n - 2) < n - 2 := Nat.mod_lt _ (by omega)
  have hb : rng.next.2.next.1 % (n - 2 - 1) < n - 2 - 1 := Nat.mod_lt _ (by omega)
  by_cases hc : rng.next.2.next.1 % (n - 2 - 1) < rng.next.1 % (n - 2)
  · rw [if_pos hc]
    omega
  · rw [if_neg hc]
    omega

theorem splice_props (route mid : List Int) (i j : Nat) (h1 : 1 ≤ i) (hij : i < j)
    (hj : j ≤ route.length - 2) (h4 : 4 ≤ route.length)
    (hperm : mid.Perm ((route.drop i).take (j - i))) :
    (route.take i ++ mid ++ route.drop j).Perm route ∧
    (route.take i ++ mid ++ route.drop j).head? = route.head? ∧
    (route.take i ++ mid ++ route.drop j).getLast? = route.getLast? := by
  have hjlt : j < route.length := by omega
  have hdrop : route.drop j ≠ [] := by
    intro hc
    rw [List.drop_eq_nil_iff] at hc
    omega
  refine ⟨?_, ?_, ?_⟩
  · have hstep : (route.take i ++ mid ++ route.drop j).Perm
        (route.take i ++ ((route.drop i).take (j - i) ++ route.drop j)) := by
      rw [← List.append_assoc]
      exact ((List.Perm.refl (route.take i)).append hperm).append (List.Perm.refl _)
    rw [take_mid_drop route i j (le_of_lt hij)] at hstep
    exact hstep
  · obtain ⟨a, t, rfl⟩ : ∃ a t, route = a :: t := by
      cases route with
      | nil => simp at h4
      | cons a t => exact ⟨a, t, rfl⟩
    rw [List.append_assoc]
    rw [head?_take_append a t _ i h1]
    rfl
  · rw [getLast?_append_right _ _ hdrop]
    exact getLast?_drop route j hjlt
theorem two_opt_props (sol : Solution) (p : Problem) (rng : Rng)
    (h : 4 ≤ sol.routes.length) :
    (tsp_2opt_neighbor sol p rng).1.routes.Perm sol.routes ∧
    (tsp_2opt_neighbor sol p rng).1.routes.head? = sol.routes.head? ∧
    (tsp_2opt_neighbor sol p rng).1.routes.getLast? = sol.routes.getLast? := by
  unfold tsp_2opt_neighbor
  rw [if_neg (by omega)]
  dsimp only
  obtain ⟨h1, h2, h3⟩ := sampleTwo_bounds sol.routes.length rng h
  exact splice_props sol.routes _ _ _ h1 h2 h3 h (List.reverse_perm _)

theorem quantum_jump_props (sol : Solution) (p : Problem) (jump_prob : ℚ) (rng : Rng)
    (h : 4 ≤ sol.routes.length) :
    (quantum_jump_neighbor sol p jump_prob rng).1.routes.Perm sol.routes ∧
    (quantum_jump_neighbor sol p jump_prob rng).1.routes.head? = sol.routes.head? ∧
    (quantum_jump_neighbor sol p jump_prob rng).1.routes.getLast? = sol.routes.getLast? := by
  unfold quantum_jump_neighbor
  rw [if_neg (by omega)]
  dsimp only
  cases hjv : (rng.nextJump jump_prob).1 with
  | false =>
    simp only [Bool.not_false, if_true]
    exact two_opt_props sol p _ h
  | true =>
    simp only [Bool.not_true, Bool.false_eq_true, if_false]
    obtain ⟨h1, h2, h3⟩ := sampleTwo_bounds sol.routes.length (rng.nextJump jump_prob).2 h
    exact splice_props sol.routes _ _ _ h1 h2 h3 h (shuffle_perm _ _)

/-- C5: for every input route of length ≥ 4, the outputs of both
`tsp_2opt_neighbor` and `quantum_jump_neighbor` (for any random draws and
any jump probability) are permutations of the same multiset of node ids as
the input route, with the first and last elements unchanged. -/
theorem c5_perturbation_invariance (sol : Solution) (p : Problem) (rng : Rng)
    (jump_prob : ℚ) (h : 4 ≤ sol.routes.length) :
    ((tsp_2opt_neighbor sol p rng).1.routes.Perm sol.routes ∧
     (tsp_2opt_neighbor sol p rng).1.routes.head? = sol.routes.head? ∧
     (tsp_2opt_neighbor sol p rng).1.routes.getLast? = sol.routes.getLast?) ∧
    ((quantum_jump_neighbor sol p jump_prob rng).1.routes.Perm sol.routes ∧
     (quantum_jump_neighbor sol p jump_prob rng).1.routes.head? = sol.routes.head? ∧
     (quantum_jump_neighbor sol p jump_prob rng).1.routes.getLast? = sol.routes.getLast?) :=
  ⟨two_opt_props sol p rng h, quantum_jump_props sol p jump_prob rng h⟩

/-- Witness for C5 on the concrete cycle `[1, 2, 3, 4, 1]`. -/
theorem c5_witness :
    4 ≤ solW5.routes.length ∧
    (tsp_2opt_neighbor solW5 pW5 ⟨[]⟩).1.routes.Perm solW5.routes ∧
    (quantum_jump_neighbor solW5 pW5 (1/2) ⟨[]⟩).1.routes.Perm solW5.routes :=
  ⟨by decide,
   (c5_perturbation_invariance solW5 pW5 ⟨[]⟩ (1/2) (by decide)).1.1,
   (c5_perturbation_invariance solW5 pW5 ⟨[]⟩ (1/2) (by decide)).2.1⟩

/-! ### C8 — route-history invariant -/

theorem head?_append_of_ne_nil (l r : List Int) (h : l ≠ []) :
    (l ++ r).head? = l.head? := by
  cases l with
  | nil => exact absurd rfl h
  | cons a t => rfl

theorem routeOk_make (agent_id : String) (s g : Int) : routeOk (Agent.make agent_id s g) := by
  refine ⟨?_, rfl, rfl⟩
  intro h
  exact List.noConfusion h

theorem step_to_fields (a : Agent) (n : Int) :
    (a.step_to n).route = a.route ++ [n] ∧ (a.step_to n).current_node = n ∧
      (a.step_to n).start_node = a.start_node := by
  unfold Agent.step_to
  dsimp only
  split <;> exact ⟨rfl, rfl, rfl⟩

theorem routeOk_step_to (a : Agent) (n : Int) (h : routeOk a) :
    routeOk (a.step_to n) ∧ (a.step_to n).route = a.route ++ [n] := by
  obtain ⟨hne, hhead, hlast⟩ := h
  obtain ⟨hroute, hcur, hstart⟩ := step_to_fields a n
  refine ⟨⟨?_, ?_, ?_⟩, hroute⟩
  · rw [hroute]
    simp
  · rw [hroute, hstart, head?_append_of_ne_nil _ _ hne]
    exact hhead
  · rw [hroute, hcur, getLast?_append_right _ _ (by simp)]
    rfl

theorem routeOk_proposeOne (p : Problem) (cfg : Config) (a : Agent)
    (moves : List (String × Int)) (rng : Rng) (h : routeOk a) :
    routeOk (proposeOne p cfg a moves rng).1 := by
  unfold proposeOne
  split
  · exact h
  · split
    · exact h
    · dsimp only
      split
      · split
        · exact h
        · exact h
      · exact h

theorem routeOk_proposePhase (p : Problem) (cfg : Config) :
    ∀ (agents : List Agent) (moves : List (String × Int)) (rng : Rng),
      (∀ a ∈ agents, routeOk a) →
      ∀ a ∈ (proposePhase p cfg agents moves rng).1, routeOk a := by
  intro agents
  induction agents with
  | nil =>
    intro moves rng _ a ha
    cases ha
  | cons b rest ih =>
    intro moves rng hall a ha
    unfold proposePhase at ha
    rcases List.mem_cons.mp ha with h1 | h2
    · subst h1
      exact routeOk_proposeOne p cfg b moves rng (hall b (List.mem_cons_self b rest))
    · exact ih _ _ (fun x hx => hall x (List.mem_cons.mpr (Or.inr hx))) a h2

theorem routeOk_blockFirst (agents : List Agent) (aid : String)
    (hall : ∀ a ∈ agents, routeOk a) :
    ∀ a ∈ blockFirst agents aid, routeOk a := by
  induction agents with
  | nil => intro a ha; cases ha
  | cons b rest ih =>
    intro a ha
    unfold blockFirst at ha
    by_cases hb : b.id = aid
    · rw [if_pos hb] at ha
      rcases List.mem_cons.mp ha with h1 | h2
      · subst h1
        exact hall b (List.mem_cons_self b rest)
      · exact hall a (List.mem_cons.mpr (Or.inr h2))
    · rw [if_neg hb] at ha
      rcases List.mem_cons.mp ha with h1 | h2
      · subst h1
        exact hall a (List.mem_cons_self a rest)
      · exact ih (fun x hx => hall x (List.mem_cons.mpr (Or.inr hx))) a h2

theorem routeOk_applyCollisions :
    ∀ (collisions : List String) (agents : List Agent) (moves : List (String × Int)),
      (∀ a ∈ agents, routeOk a) →
      ∀ a ∈ (applyCollisions agents moves collisions).1, routeOk a := by
  intro collisions
  induction collisions with
  | nil => intro agents moves hall a ha; exact hall a ha
  | cons c rest ih =>
    intro agents moves hall a ha
    have hstep : applyCollisions agents moves (c :: rest) =
        applyCollisions (blockFirst agents c) (dictRemove moves c) rest := rfl
    rw [hstep] at ha
    exact ih _ _ (routeOk_blockFirst agents c hall) a ha

theorem routeOk_stepFirst (agents : List Agent) (aid : String) (node : Int)
    (hall : ∀ a ∈ agents, routeOk a) :
    ∀ a ∈ stepFirst agents aid node, routeOk a := by
  induction agents with
  | nil => intro a ha; cases ha
  | cons b rest ih =>
    intro a ha
    unfold stepFirst at ha
    by_cases hb : b.id = aid
    · rw [if_pos hb] at ha
      rcases List.mem_cons.mp ha with h1 | h2
      · subst h1
        exact (routeOk_step_to b node (hall b (List.mem_cons_self b rest))).1
      · exact hall a (List.mem_cons.mpr (Or.inr h2))
    · rw [if_neg hb] at ha
      rcases List.mem_cons.mp ha with h1 | h2
      · subst h1
        exact hall a (List.mem_cons_self a rest)
      · exact ih (fun x hx => hall x (List.mem_cons.mpr (Or.inr hx))) a h2

theorem routeOk_commitMoves :
    ∀ (moves : List (String × Int)) (agents : List Agent),
      (∀ a ∈ agents, routeOk a) →
      ∀ a ∈ commitMoves agents moves, routeOk a := by
  intro moves
  induction moves with
  | nil => intro agents hall a ha; exact hall a ha
  | cons m rest ih =>
    intro agents hall a ha
    have hstep : commitMoves agents (m :: rest) =
        commitMoves (stepFirst agents m.1 m.2) rest := rfl
    rw [hstep] at ha
    exact ih _ (routeOk_stepFirst agents m.1 m.2 hall) a ha

theorem routeOk_unblock (agents : List Agent) (hall : ∀ a ∈ agents, routeOk a) :
    ∀ a ∈ agents.map unblockAgent, routeOk a := by
  intro a ha
  obtain ⟨b, hb, rfl⟩ := List.mem_map.mp ha
  unfold unblockAgent
  split
  · exact hall b hb
  · exact hall b hb

theorem routeOk_tickStep (hook : Option Hook) (cfg : Config) (tick : Nat)
    (st st' : RunState) (done : Bool)
    (h : tickStep hook cfg tick st = Except.ok (st', done))
    (hall : ∀ a ∈ st.agents, routeOk a) :
    ∀ a ∈ st'.agents, routeOk a := by
  unfold tickStep at h
  cases hres : (match hook with
      | none => Except.ok st.problem
      | some hk => hk tick st.problem) with
  | error e =>
    rw [hres] at h
    exact absurd h (by simp)
  | ok p =>
    rw [hres] at h
    dsimp only at h
    injection h with h1
    have h2 := congrArg Prod.fst h1
    dsimp only at h2
    rw [← h2]
    exact routeOk_unblock _
      (routeOk_commitMoves _ _
        (routeOk_applyCollisions _ _ _
          (routeOk_proposePhase p cfg st.agents [] st.rng hall)))

theorem routeOk_runFrom (hook : Option Hook) (cfg : Config) :
    ∀ (fuel tick : Nat) (st st' : RunState) (n : Nat) (conv : Option Nat),
      runFrom hook cfg fuel tick st = Except.ok (st', n, conv) →
      (∀ a ∈ st.agents, routeOk a) →
      ∀ a ∈ st'.agents, routeOk a := by
  intro fuel
  induction fuel with
  | zero =>
    intro tick st st' n conv h hall
    unfold runFrom at h
    injection h with h1
    have h2 := congrArg Prod.fst h1
    dsimp only at h2
    rw [← h2]
    exact hall
  | succ k ih =>
    intro tick st st' n conv h hall
    unfold runFrom at h
    cases hts : tickStep hook cfg tick st with
    | error e =>
      rw [hts] at h
      exact absurd h (by simp)
    | ok pr =>
      rw [hts] at h
      dsimp only at h
      have hmid : ∀ a ∈ pr.1.agents, routeOk a :=
        routeOk_tickStep hook cfg tick st pr.1 pr.2 (by rw [hts]) hall
      cases hd : pr.2 with
      | true =>
        rw [hd] at h
        simp only [if_true] at h
        injection h with h1
        have h2 := congrArg Prod.fst h1
        dsimp only at h2
        rw [← h2]
        exact hmid
      | false =>
        rw [hd] at h
        simp only [Bool.false_eq_true, if_false] at h
        cases hrec : runFrom hook cfg k (tick + 1) pr.1 with
        | error e =>
          rw [hrec] at h
          exact absurd h (by simp)
        | ok r =>
          rw [hrec] at h
          injection h with h1
          have h2 := congrArg Prod.fst h1
          dsimp only at h2
          rw [← h2]
          exact ih (tick + 1) pr.1 r.1 r.2.1 r.2.2 (by rw [hrec]) hmid

/-- C8: for every agent, the route history is non-empty, starts at
`start_node` and ends at `current_node` — after construction
(`Agent.make`), after every `step_to` (which moreover only appends one
element, leaving the existing history as a prefix), and at every point of
a scheduler run: a successful `run` maps agent sets satisfying the
invariant to agent sets satisfying it (agents are only mutated by status
changes and committed `step_to` moves). -/
theorem c8_route_history_invariant :
    (∀ (agent_id : String) (s g : Int),
      routeOk (Agent.make agent_id s g) ∧ (Agent.make agent_id s g).route = [s]) ∧
    (∀ (a : Agent) (n : Int), routeOk a →
      routeOk (a.step_to n) ∧ (a.step_to n).route = a.route ++ [n]) ∧
    (∀ (hook : Option Hook) (cfg : Config) (st : RunState)
        (out : RunState × Nat × Option Nat),
      run hook cfg st = Except.ok out →
      (∀ a ∈ st.agents, routeOk a) →
      ∀ a ∈ out.1.agents, routeOk a) := by
  refine ⟨fun agent_id s g => ⟨routeOk_make agent_id s g, rfl⟩,
    fun a n h => routeOk_step_to a n h, ?_⟩
  intro hook cfg st out hrun hall
  unfold run at hrun
  by_cases h0 : cfg.max_tick = 0
  · rw [if_pos h0] at hrun
    exact absurd hrun (by simp)
  · rw [if_neg h0] at hrun
    exact routeOk_runFrom hook cfg cfg.max_tick 0 st out.1 out.2.1 out.2.2
      (by rw [hrun]) hall

/-- Witness for C8 applying the `step_to` conjunct at a concrete agent. -/
theorem c8_witness :
    routeOk (agentW8.step_to 5) ∧ (agentW8.step_to 5).route = [1] ++ [5] :=
  c8_route_history_invariant.2.1 agentW8 5 ⟨by decide, rfl, rfl⟩

end QTrax
